import Mathlib

/-!
Shallow embedding of the crabbox jukebox engine (mikea/crabbox) in Lean 4,
together with theorems settling the specification claims about it.

Strings are modelled as `List Char` (Rust `&str` / `String`), file paths as
their string form (`Track`), and the fallible file-system operations of the
engine as explicit event traces driven by boolean success oracles.
-/

namespace Crabbox

/-! ### Rust character and string primitives (`char::is_whitespace`, `str::trim`,
`u8::to_ascii_uppercase`) -/

/-- The Unicode White_Space property, the set used by Rust's
`char::is_whitespace` and `str::trim`. -/
def rustIsWhitespace (c : Char) : Bool :=
  let n := c.toNat
  (0x9 ≤ n && n ≤ 0xD) || n == 0x20 || n == 0x85 || n == 0xA0 || n == 0x1680 ||
    (0x2000 ≤ n && n ≤ 0x200A) || n == 0x2028 || n == 0x2029 || n == 0x202F ||
    n == 0x205F || n == 0x3000

/-- Rust `str::trim_start`: drop leading whitespace. -/
def trimStart (s : List Char) : List Char :=
  s.dropWhile rustIsWhitespace

/-- Rust `str::trim_end`: drop trailing whitespace. -/
def trimEnd (s : List Char) : List Char :=
  (s.reverse.dropWhile rustIsWhitespace).reverse

/-- Rust `str::trim`: drop whitespace from both ends. -/
def rustTrim (s : List Char) : List Char :=
  trimEnd (trimStart s)

/-- Rust `char::to_ascii_uppercase`: map an ASCII lowercase letter to the
corresponding uppercase letter, leave every other character alone. -/
def toAsciiUpper (c : Char) : Char :=
  if 'a' ≤ c && c ≤ 'z' then Char.ofNat (c.toNat - 32) else c

/-! ### `src/tag.rs`: `TagId` -/

/-- `tag.rs`: a `TagId` is four raw bytes (`[u8; 4]`); each field holds one
byte value (< 256 in every reachable state). -/
structure TagId where
  b0 : Nat
  b1 : Nat
  b2 : Nat
  b3 : Nat
deriving DecidableEq, Repr

/-- Uppercase hexadecimal digit for a value below 16. -/
def hexDigit (n : Nat) : Char :=
  if n < 10 then Char.ofNat ('0'.toNat + n) else Char.ofNat ('A'.toNat + (n - 10))

/-- Rust `write!("{byte:02X}")` for a `u8`: two uppercase hex digits. -/
def formatByteHex (b : Nat) : List Char :=
  [hexDigit (b / 16 % 16), hexDigit (b % 16)]

/-- `impl Display for TagId`: each byte as two uppercase hex characters. -/
def formatTagId (id : TagId) : List Char :=
  formatByteHex id.b0 ++ formatByteHex id.b1 ++ formatByteHex id.b2 ++ formatByteHex id.b3

/-! ### `src/commands.rs`: `Command`, `Display`, `parse_command` -/

/-- `commands.rs`: the `Command` enum (the `rpi`-gated `Tag` variant
included). -/
inductive Command where
  | Play (filter : Option (List Char))
  | PlayPause (filter : Option (List Char))
  | Shuffle (filter : Option (List Char))
  | Stop
  | Next
  | Prev
  | TrackDone
  | VolumeUp
  | VolumeDown
  | Shutdown
  | AssignTag (id : TagId) (command : Option (List Char))
  | Tag (id : TagId)
deriving DecidableEq, Repr

/-- `commands.rs::write_name_with_filter`: the name alone, or the name, one
space, and the filter text. -/
def writeNameWithFilter (name : List Char) (filter : Option (List Char)) : List Char :=
  match filter with
  | some f => name ++ ' ' :: f
  | none => name

/-- `impl fmt::Display for Command` (`format_command` in the claims). -/
def format_command : Command → List Char
  | .Play f => writeNameWithFilter "PLAY".data f
  | .PlayPause f => writeNameWithFilter "PLAYPAUSE".data f
  | .Shuffle f => writeNameWithFilter "SHUFFLE".data f
  | .Stop => "STOP".data
  | .Next => "NEXT".data
  | .Prev => "PREV".data
  | .TrackDone => "TRACKDONE".data
  | .VolumeUp => "VOLUMEUP".data
  | .VolumeDown => "VOLUMEDOWN".data
  | .Shutdown => "SHUTDOWN".data
  | .AssignTag id _ => "ASSIGN_TAG ".data ++ formatTagId id
  | .Tag id => "TAG ".data ++ formatTagId id

/-- Rust `str::splitn(2, char::is_whitespace)` on an iterator of at most two
parts: the text before the first whitespace character, and (when a whitespace
character exists) everything after it. -/
def splitFirstWs : List Char → List Char × Option (List Char)
  | [] => ([], none)
  | c :: cs =>
    if rustIsWhitespace c then ([], some cs)
    else
      let r := splitFirstWs cs
      (c :: r.1, r.2)

/-- The `match command.as_str()` arm table of `parse_command`. -/
def parseVerb (command : List Char) (filter : Option (List Char)) : Option Command :=
  if command = "PLAY".data then some (Command.Play filter)
  else if command = "PLAYPAUSE".data then some (Command.PlayPause filter)
  else if command = "SHUFFLE".data then some (Command.Shuffle filter)
  else if command = "STOP".data then some Command.Stop
  else if command = "NEXT".data then some Command.Next
  else if command = "PREV".data then some Command.Prev
  else if command = "PREVIOUS".data then some Command.Prev
  else if command = "SHUTDOWN".data then some Command.Shutdown
  else if command = "VOLUMEUP".data then some Command.VolumeUp
  else if command = "VOLUMEDOWN".data then some Command.VolumeDown
  else none

/-- `commands.rs::parse_command`: trim the input, split off the verb at the
first whitespace, uppercase the verb (ASCII), take the trimmed non-empty
remainder as the filter, and match the verb. -/
def parse_command (input : List Char) : Option Command :=
  let t := rustTrim input
  let ps := splitFirstWs t
  let command := ps.1.map toAsciiUpper
  let filter : Option (List Char) :=
    match ps.2 with
    | some rest =>
      let r := rustTrim rest
      if r = [] then none else some r
    | none => none
  parseVerb command filter

/-! ### `src/state.rs` and `src/crabbox.rs`: persisted state and `Queue` -/

/-- A track is a `PathBuf` in its string form. -/
abbrev Track := List Char

/-- `state.rs::State`: the persisted playback state. -/
structure State where
  queue : List Track
  position : Option Nat
deriving DecidableEq, Repr

/-- `crabbox.rs::Queue`: the track list plus the optional cursor. -/
structure Queue where
  tracks : List Track
  current : Option Nat
deriving DecidableEq, Repr

/-- `Queue::from_tracks_ordered`. -/
def Queue.from_tracks_ordered (tracks : List Track) : Queue :=
  { tracks := tracks, current := if tracks.isEmpty then none else some 0 }

/-- `Queue::empty`. -/
def Queue.emptyQueue : Queue :=
  { tracks := [], current := none }

/-- `Queue::from_tracks_shuffled`; the RNG draw of `tracks.shuffle(&mut rng())`
is abstracted as the permutation `shuffle`. -/
def Queue.from_tracks_shuffled (shuffle : List Track → List Track) (tracks : List Track) : Queue :=
  let tracks := shuffle tracks
  { tracks := tracks, current := if tracks.isEmpty then none else some 0 }

/-- `Queue::from_state`: adopt tracks and cursor, then discard an
out-of-bounds cursor. -/
def Queue.from_state (state : State) : Queue :=
  let queue : Queue := { tracks := state.queue, current := state.position }
  match queue.current with
  | some idx => if queue.tracks.length ≤ idx then { queue with current := none } else queue
  | none => queue

/-- `Queue::track_at`: `tracks.get(idx).cloned()`. -/
def Queue.track_at (q : Queue) (idx : Nat) : Option Track :=
  q.tracks[idx]?

/-- `Queue::current_track`. -/
def Queue.current_track (q : Queue) : Option Track :=
  q.current.bind fun idx => q.tracks[idx]?

/-- `Queue::next_track`: the returned track and the updated queue. -/
def Queue.next_track (q : Queue) : Option Track × Queue :=
  if q.tracks.isEmpty then (none, q)
  else
    let next_idx :=
      match q.current with
      | some idx => (idx + 1) % q.tracks.length
      | none => 0
    let q1 := { q with current := some next_idx }
    (q1.track_at next_idx, q1)

/-- `Queue::prev_track`: the returned track and the updated queue. -/
def Queue.prev_track (q : Queue) : Option Track × Queue :=
  if q.tracks.isEmpty then (none, q)
  else
    let prev_idx :=
      match q.current with
      | some idx => (idx + q.tracks.length - 1) % q.tracks.length
      | none => 0
    let q1 := { q with current := some prev_idx }
    (q1.track_at prev_idx, q1)

/-- The queue part of one `next_track` call. -/
def nextQ (q : Queue) : Queue :=
  (Queue.next_track q).2

/-- The queue part of one `prev_track` call. -/
def prevQ (q : Queue) : Queue :=
  (Queue.prev_track q).2

/-! ### `src/glob.rs`: glob patterns

`glob_to_regex` turns the glob pattern into an anchored regex built only from
`.*` (for `*`), `.` (for `?`) and escaped literal characters, and `Glob`
matches the whole string against it. The embedding parses the pattern into
the corresponding atom sequence and gives the anchored regex its standard
matching semantics. -/

/-- One atom of the regex built by `glob_to_regex`: `.*`, `.`, or an escaped
literal character. -/
inductive GlobAtom where
  | star
  | anyChar
  | lit (c : Char)
deriving DecidableEq, Repr

/-- `glob.rs::glob_to_regex`, atom by atom: `*` becomes `.*`, `?` becomes `.`,
`\` escapes the next character (a trailing `\` stands for a literal
backslash), and every other character is an escaped literal. -/
def glob_to_atoms : List Char → List GlobAtom
  | [] => []
  | '*' :: rest => .star :: glob_to_atoms rest
  | '?' :: rest => .anyChar :: glob_to_atoms rest
  | '\\' :: c :: rest => .lit c :: glob_to_atoms rest
  | ['\\'] => [.lit '\\']
  | c :: rest => .lit c :: glob_to_atoms rest

/-- All suffixes of a string, longest first. -/
def tails : List Char → List (List Char)
  | [] => [[]]
  | c :: s => (c :: s) :: tails s

/-- Whole-string matching of the anchored atom sequence (`Regex::is_match` on
the `^...$` regex built by `glob_to_regex`): `star` consumes any run of
characters (some suffix of the string matches the rest of the atoms),
`anyChar` exactly one character, `lit c` exactly the character `c`. -/
def globMatch : List GlobAtom → List Char → Bool
  | [], s => s.isEmpty
  | .star :: ps, s => (tails s).any fun s2 => globMatch ps s2
  | .anyChar :: _, [] => false
  | .anyChar :: ps, _ :: s => globMatch ps s
  | .lit _ :: _, [] => false
  | .lit c :: ps, x :: s => c == x && globMatch ps s

/-- `Glob::new` followed by `Glob::is_match` (`glob_to_regex` never produces
an invalid regex, so construction always succeeds). -/
def glob_is_match (pattern value : List Char) : Bool :=
  globMatch (glob_to_atoms pattern) value

/-- `Library::list_tracks` with `library` the sorted file-walk result of
`collect_music_files`: no filter returns the whole listing, a filter keeps
the paths the glob matches. -/
def list_tracks (library : List Track) (filter : Option (List Char)) : List Track :=
  match filter with
  | none => library
  | some f => library.filter fun path => glob_is_match f path

/-! ### Side-effect events and the fallible file-system environment

The engine's observable side effects (player calls, state saves, config-file
I/O) are recorded as an event trace; each fallible operation's success is an
oracle bit of the environment. -/

/-- One observable side effect of command processing. -/
inductive Ev where
  | fsReadConfig
  | fsBackupCopy
  | fsWriteConfig
  | sinkStopped
  | playStarted (t : Track)
  | playFailed (t : Track)
  | sinkPaused
  | sinkResumed
  | saveState (tracks : List Track) (position : Option Nat)
  | volumeUp
  | volumeDown
  | shutdownSound
  | shutdownHost
deriving DecidableEq, Repr

/-- Success oracles for the file-system steps of `persist_tag_mapping` and
`backup_config_file`: whether the config read, the TOML parse, the backup
copy, the `[tags]`-is-a-table check and the config write succeed, and whether
a backup directory is configured. -/
structure PersistEnv where
  readOk : Bool
  parseOk : Bool
  backupConfigured : Bool
  backupOk : Bool
  tagsIsTable : Bool
  writeOk : Bool
deriving DecidableEq, Repr

/-- `Crabbox::backup_config_file`: no backup directory means an immediate
`Ok`; otherwise the timestamped copy is attempted, and the event records a
completed copy. -/
def backup_config_file (env : PersistEnv) : List Ev × Bool :=
  if env.backupConfigured then
    (if env.backupOk then [Ev.fsBackupCopy] else [], env.backupOk)
  else ([], true)

/-- `Crabbox::persist_tag_mapping`, as its sequence of file-system steps:
read the config, parse it, back it up, locate the `[tags]` table, edit the
one key in the document tree (pure, no I/O), and write the document back.
Each step aborts the rest on failure. Events record completed operations. -/
def persist_tag_mapping (env : PersistEnv) : List Ev × Bool :=
  if env.readOk then
    if env.parseOk then
      let b := backup_config_file env
      if b.2 then
        if env.tagsIsTable then
          if env.writeOk then
            (Ev.fsReadConfig :: b.1 ++ [Ev.fsWriteConfig], true)
          else (Ev.fsReadConfig :: b.1, false)
        else (Ev.fsReadConfig :: b.1, false)
      else (Ev.fsReadConfig :: b.1, false)
    else ([Ev.fsReadConfig], false)
  else ([], false)

/-! ### Tag bindings (`HashMap<TagId, Command>` as an association list) -/

/-- `HashMap::insert`: replace the binding of an existing key, else append. -/
def tagsInsert : List (TagId × Command) → TagId → Command → List (TagId × Command)
  | [], id, cmd => [(id, cmd)]
  | (k, v) :: rest, id, cmd =>
    if k = id then (id, cmd) :: rest else (k, v) :: tagsInsert rest id cmd

/-- `HashMap::remove`: drop the binding of the key. -/
def tagsRemove : List (TagId × Command) → TagId → List (TagId × Command)
  | [], _ => []
  | (k, v) :: rest, id => if k = id then rest else (k, v) :: tagsRemove rest id

/-- `HashMap::get`: the binding of the key, if any. -/
def lookupTag : List (TagId × Command) → TagId → Option Command
  | [], _ => none
  | (k, v) :: rest, id => if k = id then some v else lookupTag rest id

/-- `Crabbox::assign_tag`: trim the binding text and drop it when empty
(removal); otherwise parse it — on success insert the binding and persist, on
parse failure only log. Returns the new bindings and the file-system trace. -/
def assign_tag (tags : List (TagId × Command)) (env : PersistEnv) (id : TagId)
    (command : Option (List Char)) : List (TagId × Command) × List Ev :=
  let filtered : Option (List Char) :=
    match command with
    | some s =>
      let t := rustTrim s
      if t = [] then none else some t
    | none => none
  match filtered with
  | some s =>
    match parse_command s with
    | some cmd => (tagsInsert tags id cmd, (persist_tag_mapping env).1)
    | none => (tags, [])
  | none => (tagsRemove tags id, (persist_tag_mapping env).1)

/-! ### `src/player.rs`: the player -/

/-- The live sink: the playing track and whether it is paused. -/
structure Sink where
  track : Track
  paused : Bool
deriving DecidableEq, Repr

/-- `player.rs::Player`: at most one sink, plus whether a track-end watcher
task is pending. The volume is a clamped float never read by the modelled
claims; volume changes appear only as trace events. -/
structure PlayerState where
  sink : Option Sink
  watching : Bool
deriving DecidableEq, Repr

/-- `Player::stop`: cancel the watcher, then stop and release the sink. -/
def Player.stop (p : PlayerState) : PlayerState × List Ev :=
  ({ sink := none, watching := false },
   if p.sink.isSome then [Ev.sinkStopped] else [])

/-- `Player::play` with the success oracle `ok` (device open, file open and
decode start collapsed into one bit): on success a fresh unpaused sink plays
the track and, when `notify`, a new watcher is armed; on failure the player
is left as it was and an error is reported. -/
def Player.play (p : PlayerState) (t : Track) (ok : Bool) (notify : Bool) :
    PlayerState × Bool × List Ev :=
  if ok then
    ({ sink := some { track := t, paused := false },
       watching := if notify then true else p.watching },
     true, [Ev.playStarted t])
  else (p, false, [Ev.playFailed t])

/-- `Player::has_sink`. -/
def Player.has_sink (p : PlayerState) : Bool :=
  p.sink.isSome

/-- `Player::is_paused`. -/
def Player.is_paused (p : PlayerState) : Bool :=
  match p.sink with
  | some s => s.paused
  | none => false

/-- `Player::pause`: only meaningful with a sink. -/
def Player.pause (p : PlayerState) : PlayerState × List Ev :=
  match p.sink with
  | some s => ({ p with sink := some { s with paused := true } }, [Ev.sinkPaused])
  | none => (p, [])

/-- `Player::resume`: only meaningful with a sink. -/
def Player.resume (p : PlayerState) : PlayerState × List Ev :=
  match p.sink with
  | some s => ({ p with sink := some { s with paused := false } }, [Ev.sinkResumed])
  | none => (p, [])

/-- `player.rs::ToggleResult`. -/
inductive ToggleResult where
  | Started (t : Track)
  | Toggled
  | Stopped
deriving DecidableEq, Repr

/-- `player.rs::play_track`: nothing to play reports an error; otherwise stop
the player and start the track, returning the track on success. -/
def play_track (track : Option Track) (p : PlayerState) (ok : Track → Bool) (notify : Bool) :
    Option Track × PlayerState × List Ev :=
  match track with
  | none => (none, p, [])
  | some t =>
    let s1 := Player.stop p
    let s2 := Player.play s1.1 t (ok t) notify
    (if s2.2.1 then some t else none, s2.1, s1.2 ++ s2.2.2)

/-- `player.rs::toggle_play_pause`: with a sink, toggle pause/resume in
place; without one, behave as `play_track`. -/
def toggle_play_pause (track : Option Track) (p : PlayerState) (ok : Track → Bool)
    (notify : Bool) : ToggleResult × PlayerState × List Ev :=
  if Player.has_sink p then
    if Player.is_paused p then
      let s := Player.resume p
      (ToggleResult.Toggled, s.1, s.2)
    else
      let s := Player.pause p
      (ToggleResult.Toggled, s.1, s.2)
  else
    let r := play_track track p ok notify
    match r.1 with
    | some t => (ToggleResult.Started t, r.2.1, r.2.2)
    | none => (ToggleResult.Stopped, r.2.1, r.2.2)

/-! ### `src/crabbox.rs`: the engine -/

/-- `crabbox.rs::QueueOrder`. -/
inductive QueueOrder where
  | Ordered
  | Shuffled
deriving DecidableEq, Repr

/-- The engine's mutable state relevant to command processing: the library
listing (the walk result of `collect_music_files`), the queue, the tag
bindings, `status.current`, `status.last_tag`, whether a state file is
configured, and the config-persistence environment. -/
structure EngineState where
  library : List Track
  queue : Queue
  tags : List (TagId × Command)
  current : Option Track
  lastTag : Option TagId
  stateFileConfigured : Bool
  env : PersistEnv
deriving DecidableEq, Repr

/-- `Crabbox::save_state`: with a state file configured, serialize the queue
tracks and cursor (a write failure is only logged, so the event records the
attempt with the exact serialized record). -/
def save_state (st : EngineState) : List Ev :=
  if st.stateFileConfigured then [Ev.saveState st.queue.tracks st.queue.current] else []

/-- `Crabbox::rebuild_queue`: list the (filtered) library, build the ordered
or shuffled queue from it, clear `status.current`, and save state. -/
def rebuild_queue (st : EngineState) (filter : Option (List Char)) (order : QueueOrder)
    (shuffle : List Track → List Track) : EngineState × List Ev :=
  let tracks := list_tracks st.library filter
  let queue :=
    match order with
    | .Ordered => Queue.from_tracks_ordered tracks
    | .Shuffled => Queue.from_tracks_shuffled shuffle tracks
  let st1 := { st with queue := queue, current := none }
  (st1, save_state st1)

/-- `Crabbox::play_queue_track`: play the track, set `status.current` to the
started track (or clear it), and save state. -/
def play_queue_track (st : EngineState) (track : Option Track) (p : PlayerState)
    (ok : Track → Bool) : EngineState × PlayerState × List Ev :=
  let r := play_track track p ok true
  let st1 := { st with current := r.1 }
  (st1, r.2.1, r.2.2 ++ save_state st1)

/-- `Crabbox::on_play_pause`: with a filter, rebuild the ordered queue, stop
the player and start the cursor track; without one, toggle via
`toggle_play_pause`. Either way update `status.current` from the toggle
result and save state. -/
def on_play_pause (st : EngineState) (p : PlayerState) (ok : Track → Bool)
    (shuffle : List Track → List Track) (filter : Option (List Char)) :
    EngineState × PlayerState × List Ev :=
  match filter with
  | some f =>
    let r1 := rebuild_queue st (some f) QueueOrder.Ordered shuffle
    let s1 := Player.stop p
    let track := r1.1.queue.current_track
    let r2 := play_track track s1.1 ok true
    let toggle :=
      match r2.1 with
      | some t => ToggleResult.Started t
      | none => ToggleResult.Stopped
    let st2 :=
      match toggle with
      | .Started t => { r1.1 with current := some t }
      | .Stopped => { r1.1 with current := none }
      | .Toggled => r1.1
    (st2, r2.2.1, r1.2 ++ s1.2 ++ r2.2.2 ++ save_state st2)
  | none =>
    let track := st.queue.current_track
    let r := toggle_play_pause track p ok true
    let st1 :=
      match r.1 with
      | .Started t => { st with current := some t }
      | .Stopped => { st with current := none }
      | .Toggled => st
    (st1, r.2.1, r.2.2 ++ save_state st1)

/-- The non-`Tag` arms of `Crabbox::process_command` (the `Tag` arm, whose
guarded recursive dispatch only ever reaches these arms, lives in
`process_command`). -/
def process_basic (st : EngineState) (p : PlayerState) (ok : Track → Bool)
    (shuffle : List Track → List Track) : Command → EngineState × PlayerState × List Ev
  | .Play filter =>
    let r1 := rebuild_queue st filter QueueOrder.Ordered shuffle
    let s1 := Player.stop p
    let track := r1.1.queue.current_track
    let r2 := play_queue_track r1.1 track s1.1 ok
    (r2.1, r2.2.1, r1.2 ++ s1.2 ++ r2.2.2)
  | .PlayPause filter => on_play_pause st p ok shuffle filter
  | .Shuffle filter =>
    let r1 := rebuild_queue st filter QueueOrder.Shuffled shuffle
    let s1 := Player.stop p
    let track := r1.1.queue.current_track
    let r2 := play_queue_track r1.1 track s1.1 ok
    (r2.1, r2.2.1, r1.2 ++ s1.2 ++ r2.2.2)
  | .Stop =>
    let s1 := Player.stop p
    let st1 := { st with current := none }
    (st1, s1.1, s1.2 ++ save_state st1)
  | .Next =>
    let n := st.queue.next_track
    let st1 := { st with queue := n.2 }
    let r := play_queue_track st1 n.1 p ok
    (r.1, r.2.1, r.2.2)
  | .Prev =>
    let n := st.queue.prev_track
    let st1 := { st with queue := n.2 }
    let r := play_queue_track st1 n.1 p ok
    (r.1, r.2.1, r.2.2)
  | .TrackDone =>
    let n := st.queue.next_track
    let st1 := { st with queue := n.2 }
    let r := play_queue_track st1 n.1 p ok
    (r.1, r.2.1, r.2.2)
  | .VolumeUp => (st, p, [Ev.volumeUp])
  | .VolumeDown => (st, p, [Ev.volumeDown])
  | .Shutdown =>
    let s1 := Player.stop p
    let st1 := { st with current := none }
    (st1, s1.1, s1.2 ++ save_state st1 ++ [Ev.shutdownSound, Ev.shutdownHost])
  | .AssignTag id command =>
    let r := assign_tag st.tags st.env id command
    ({ st with tags := r.1 }, p, r.2)
  | .Tag id => ({ st with lastTag := some id }, p, [])

/-- `Crabbox::process_command`: the `Tag` arm records `last_tag`, refuses a
binding that maps to another `Tag` command, dispatches any other binding, and
is a no-op for an unbound tag; every other command goes to its own arm. -/
def process_command (st : EngineState) (p : PlayerState) (ok : Track → Bool)
    (shuffle : List Track → List Track) : Command → EngineState × PlayerState × List Ev
  | .Tag id =>
    let st1 := { st with lastTag := some id }
    match lookupTag st.tags id with
    | some (Command.Tag _) => (st1, p, [])
    | some mapped => process_basic st1 p ok shuffle mapped
    | none => (st1, p, [])
  | cmd => process_basic st p ok shuffle cmd

/-- The commands whose formatted text parses back to the same command: every
variant except `AssignTag`, `TrackDone` and `Tag`, with any present filter
non-empty and free of leading and trailing whitespace. -/
def RoundTrippable : Command → Prop
  | Command.Play (some f) => rustTrim f = f ∧ f ≠ []
  | Command.PlayPause (some f) => rustTrim f = f ∧ f ≠ []
  | Command.Shuffle (some f) => rustTrim f = f ∧ f ≠ []
  | Command.TrackDone => False
  | Command.AssignTag _ _ => False
  | Command.Tag _ => False
  | _ => True

/-! ## Lemmas about trimming and splitting -/

theorem dropWhile_ws_cons_false {c : Char} {l : List Char} (h : rustIsWhitespace c = false) :
    List.dropWhile rustIsWhitespace (c :: l) = c :: l := by
  simp [List.dropWhile_cons, h]

theorem ws_false_of_dropWhile_fix {c : Char} {l : List Char}
    (h : List.dropWhile rustIsWhitespace (c :: l) = c :: l) : rustIsWhitespace c = false := by
  cases hc : rustIsWhitespace c with
  | false => rfl
  | true =>
    exfalso
    rw [List.dropWhile_cons, hc] at h
    simp only [if_true] at h
    have hle : (List.dropWhile rustIsWhitespace l).length ≤ l.length :=
      (List.dropWhile_suffix (p := rustIsWhitespace) (l := l)).length_le
    rw [h] at hle
    simp at hle

theorem dropWhile_ws_idem (l : List Char) :
    List.dropWhile rustIsWhitespace (List.dropWhile rustIsWhitespace l) =
      List.dropWhile rustIsWhitespace l := by
  induction l with
  | nil => rfl
  | cons c cs ih =>
    cases hc : rustIsWhitespace c with
    | true => rw [List.dropWhile_cons, hc]; simpa using ih
    | false =>
      rw [dropWhile_ws_cons_false hc, dropWhile_ws_cons_false hc]

theorem trimStart_idem (s : List Char) : trimStart (trimStart s) = trimStart s :=
  dropWhile_ws_idem s

theorem trimEnd_idem (s : List Char) : trimEnd (trimEnd s) = trimEnd s := by
  simp [trimEnd, List.reverse_reverse, dropWhile_ws_idem]

theorem trimStart_of_trimEnd {m : List Char} (h : trimStart m = m) :
    trimStart (trimEnd m) = trimEnd m := by
  obtain ⟨t, ht⟩ := List.dropWhile_suffix (p := rustIsWhitespace) (l := m.reverse)
  have hm : m = (List.dropWhile rustIsWhitespace m.reverse).reverse ++ t.reverse := by
    have := congrArg List.reverse ht
    simpa [List.reverse_append] using this.symm
  unfold trimEnd
  cases hu : (List.dropWhile rustIsWhitespace m.reverse).reverse with
  | nil => rfl
  | cons a k =>
    rw [hm, hu] at h
    rw [List.cons_append] at h
    have ha : rustIsWhitespace a = false := by
      unfold trimStart at h
      exact ws_false_of_dropWhile_fix h
    exact dropWhile_ws_cons_false ha

theorem rustTrim_idem (s : List Char) : rustTrim (rustTrim s) = rustTrim s := by
  unfold rustTrim
  rw [trimStart_of_trimEnd (trimStart_idem s), trimEnd_idem]

theorem rustTrim_parts {f : List Char} (h : rustTrim f = f) :
    trimStart f = f ∧ trimEnd f = f := by
  have hlen2 : (trimEnd (trimStart f)).length ≤ (trimStart f).length := by
    unfold trimEnd
    simpa using
      (List.dropWhile_suffix (p := rustIsWhitespace) (l := (trimStart f).reverse)).length_le
  have hlen1 : (trimStart f).length ≤ f.length :=
    (List.dropWhile_suffix (p := rustIsWhitespace) (l := f)).length_le
  have hflen : f.length ≤ (trimStart f).length := by
    conv_lhs => rw [← h]
    exact hlen2
  have hstart : trimStart f = f :=
    (List.dropWhile_suffix (p := rustIsWhitespace) (l := f)).eq_of_length
      (Nat.le_antisymm hlen1 hflen)
  refine ⟨hstart, ?_⟩
  have h2 : trimEnd (trimStart f) = f := h
  rw [hstart] at h2
  exact h2

theorem trimEnd_last {f : List Char} (h : trimEnd f = f) (h0 : f ≠ []) :
    ∃ c cs, f.reverse = c :: cs ∧ rustIsWhitespace c = false := by
  have hrev : List.dropWhile rustIsWhitespace f.reverse = f.reverse := by
    have := congrArg List.reverse h
    simpa [trimEnd] using this
  cases hc : f.reverse with
  | nil => exact absurd (by simpa using congrArg List.reverse hc) h0
  | cons c cs =>
    rw [hc] at hrev
    exact ⟨c, cs, rfl, ws_false_of_dropWhile_fix hrev⟩

theorem rustTrim_name_filter {p f : List Char}
    (hp : p.all (fun c => !rustIsWhitespace c) = true) (hp0 : p ≠ [])
    (hf : rustTrim f = f) (hf0 : f ≠ []) :
    rustTrim (p ++ ' ' :: f) = p ++ ' ' :: f := by
  obtain ⟨hfs, hfe⟩ := rustTrim_parts hf
  obtain ⟨c, cs, hrev, hc⟩ := trimEnd_last hfe hf0
  cases p with
  | nil => exact absurd rfl hp0
  | cons a p1 =>
    have ha : rustIsWhitespace a = false := by
      have := List.all_eq_true.mp hp a (by simp)
      simpa using this
    have hstart : trimStart ((a :: p1) ++ ' ' :: f) = (a :: p1) ++ ' ' :: f := by
      rw [List.cons_append]
      exact dropWhile_ws_cons_false ha
    have hrevall : ((a :: p1) ++ ' ' :: f).reverse = c :: (cs ++ ' ' :: (a :: p1).reverse) := by
      rw [List.reverse_append, List.reverse_cons, hrev]
      simp
    have hend : trimEnd ((a :: p1) ++ ' ' :: f) = (a :: p1) ++ ' ' :: f := by
      unfold trimEnd
      rw [hrevall, dropWhile_ws_cons_false hc, ← hrevall, List.reverse_reverse]
    unfold rustTrim
    rw [hstart, hend]

theorem splitFirstWs_name_filter {p f : List Char}
    (hp : p.all (fun c => !rustIsWhitespace c) = true) :
    splitFirstWs (p ++ ' ' :: f) = (p, some f) := by
  induction p with
  | nil =>
    show splitFirstWs (' ' :: f) = ([], some f)
    unfold splitFirstWs
    norm_num [show rustIsWhitespace ' ' = true from rfl]
  | cons a p1 ih =>
    have ha : rustIsWhitespace a = false := by
      have := List.all_eq_true.mp hp a (by simp)
      simpa using this
    have hp1 : p1.all (fun c => !rustIsWhitespace c) = true := by
      rw [List.all_cons] at hp
      exact (Bool.and_eq_true_iff.mp hp).2
    rw [List.cons_append]
    unfold splitFirstWs
    rw [ha]
    simp only [Bool.false_eq_true, if_false, ih hp1]

theorem parse_command_name_filter {p f : List Char}
    (hp : p.all (fun c => !rustIsWhitespace c) = true) (hp0 : p ≠ [])
    (hf : rustTrim f = f) (hf0 : f ≠ []) :
    parse_command (p ++ ' ' :: f) = parseVerb (p.map toAsciiUpper) (some f) := by
  unfold parse_command
  simp only [rustTrim_name_filter hp hp0 hf hf0, splitFirstWs_name_filter hp, hf, if_neg hf0]

/-! ## Claim C1: parse/format round trip -/

/-- C1 (counterexample): formatting `TrackDone` gives a text that
`parse_command` does not parse at all, so the round trip fails for the
`TrackDone` variant even though it is not `AssignTag`. -/
theorem trackdone_roundtrip_fails :
    parse_command (format_command Command.TrackDone) = none ∧
      parse_command (format_command Command.TrackDone) ≠ some Command.TrackDone := by
  decide

/-- C1 (amended): for every command except `AssignTag`, `TrackDone` and
`Tag`, with any present filter non-empty and free of leading and trailing
whitespace, parsing the formatted text yields the original command. -/
theorem parse_format_roundtrip (cmd : Command) (h : RoundTrippable cmd) :
    parse_command (format_command cmd) = some cmd := by
  cases cmd with
  | Play f =>
    cases f with
    | none => decide
    | some f =>
      simp only [RoundTrippable] at h
      have hr := parse_command_name_filter (p := "PLAY".data) (f := f)
        (by decide) (by decide) h.1 h.2
      exact hr.trans rfl
  | PlayPause f =>
    cases f with
    | none => decide
    | some f =>
      simp only [RoundTrippable] at h
      have hr := parse_command_name_filter (p := "PLAYPAUSE".data) (f := f)
        (by decide) (by decide) h.1 h.2
      exact hr.trans rfl
  | Shuffle f =>
    cases f with
    | none => decide
    | some f =>
      simp only [RoundTrippable] at h
      have hr := parse_command_name_filter (p := "SHUFFLE".data) (f := f)
        (by decide) (by decide) h.1 h.2
      exact hr.trans rfl
  | Stop => decide
  | Next => decide
  | Prev => decide
  | TrackDone => exact absurd h (by simp [RoundTrippable])
  | VolumeUp => decide
  | VolumeDown => decide
  | Shutdown => decide
  | AssignTag id c => exact absurd h (by simp [RoundTrippable])
  | Tag id => exact absurd h (by simp [RoundTrippable])

/-- C1 (witness): the round trip at the concrete command `PLAY chill`. -/
theorem parse_format_roundtrip_witness :
    RoundTrippable (Command.Play (some "chill".data)) ∧
      parse_command (format_command (Command.Play (some "chill".data))) =
        some (Command.Play (some "chill".data)) :=
  ⟨by simp only [RoundTrippable]; decide,
   parse_format_roundtrip _ (by simp only [RoundTrippable]; decide)⟩

/-! ## Lemmas about the queue cursor -/

theorem isEmpty_false_of_ne_nil {tracks : List Track} (h0 : tracks ≠ []) :
    tracks.isEmpty = false := by
  cases tracks with
  | nil => exact absurd rfl h0
  | cons a l => rfl

theorem nextQ_some (tracks : List Track) (idx : Nat) (h0 : tracks ≠ []) :
    nextQ { tracks := tracks, current := some idx } =
      { tracks := tracks, current := some ((idx + 1) % tracks.length) } := by
  simp [nextQ, Queue.next_track, isEmpty_false_of_ne_nil h0]

theorem prevQ_some (tracks : List Track) (idx : Nat) (h0 : tracks ≠ []) :
    prevQ { tracks := tracks, current := some idx } =
      { tracks := tracks, current := some ((idx + tracks.length - 1) % tracks.length) } := by
  simp [prevQ, Queue.prev_track, isEmpty_false_of_ne_nil h0]

theorem nextQ_iter (tracks : List Track) (idx k : Nat) (h0 : tracks ≠ [])
    (hlt : idx < tracks.length) :
    nextQ^[k] { tracks := tracks, current := some idx } =
      { tracks := tracks, current := some ((idx + k) % tracks.length) } := by
  induction k with
  | zero => simp [Nat.mod_eq_of_lt hlt]
  | succ k ih =>
    rw [Function.iterate_succ_apply', ih, nextQ_some _ _ h0]
    rw [Nat.mod_add_mod, Nat.add_assoc]

theorem prevQ_iter (tracks : List Track) (idx k : Nat) (h0 : tracks ≠ [])
    (hlt : idx < tracks.length) :
    prevQ^[k] { tracks := tracks, current := some idx } =
      { tracks := tracks, current := some ((idx + k * (tracks.length - 1)) % tracks.length) } := by
  induction k with
  | zero => simp [Nat.mod_eq_of_lt hlt]
  | succ k ih =>
    rw [Function.iterate_succ_apply', ih, prevQ_some _ _ h0]
    have hpos : 1 ≤ tracks.length := List.length_pos.mpr h0
    rw [Nat.add_sub_assoc hpos, Nat.mod_add_mod]
    have harg : idx + k * (tracks.length - 1) + (tracks.length - 1)
        = idx + (k + 1) * (tracks.length - 1) := by ring
    rw [harg]

theorem dvd_of_mod_add_eq {len idx k : Nat} (hlt : idx < len)
    (h : (idx + k) % len = idx) : len ∣ k := by
  have hm : idx % len = idx := Nat.mod_eq_of_lt hlt
  have : Nat.ModEq len idx (idx + k) := by
    unfold Nat.ModEq
    rw [h, hm]
  exact by simpa using (Nat.modEq_iff_dvd' (Nat.le_add_right idx k)).mp this

/-! ## Claim C2: next then prev restores the cursor -/

/-- C2 (counterexample): on the one-track queue whose cursor is `None`,
`next_track` then `prev_track` leaves the cursor at `Some 0`, not at its
original value `None`. -/
theorem next_prev_cursor_not_restored :
    (prevQ (nextQ { tracks := ["a".data], current := none })).current ≠
      Queue.current { tracks := ["a".data], current := none } := by
  decide

/-- C2 (amended): `next_track` then `prev_track` restores the cursor for
every queue whose tracks are empty or whose cursor is a valid index; it does
not in general for a non-empty queue whose cursor is `None`, as the
counterexample shows. -/
theorem next_prev_restores_cursor (q : Queue)
    (h : q.tracks = [] ∨ ∃ idx, q.current = some idx ∧ idx < q.tracks.length) :
    prevQ (nextQ q) = q := by
  obtain ⟨tracks, current⟩ := q
  rcases h with h | ⟨idx, hc, hlt⟩
  · simp only at h
    subst h
    rfl
  · simp only at hc hlt
    subst hc
    have h0 : tracks ≠ [] := by
      intro hnil
      rw [hnil] at hlt
      exact absurd hlt (by simp)
    rw [nextQ_some _ _ h0, prevQ_some _ _ h0]
    have hpos : 1 ≤ tracks.length := List.length_pos.mpr h0
    have harith : ((idx + 1) % tracks.length + tracks.length - 1) % tracks.length = idx := by
      rcases Nat.lt_or_ge (idx + 1) tracks.length with hl | hg
      · rw [Nat.mod_eq_of_lt hl]
        have : idx + 1 + tracks.length - 1 = idx + tracks.length := by omega
        rw [this, Nat.add_mod_right, Nat.mod_eq_of_lt hlt]
      · have hexact : idx + 1 = tracks.length := by omega
        rw [hexact, Nat.mod_self]
        have : 0 + tracks.length - 1 = tracks.length - 1 := by omega
        rw [this, Nat.mod_eq_of_lt (by omega)]
        omega
    rw [harith]

/-- C2 (witness): the restored cursor at a concrete two-track queue. -/
theorem next_prev_restores_cursor_witness :
    prevQ (nextQ { tracks := ["a".data, "b".data], current := some 1 }) =
      { tracks := ["a".data, "b".data], current := some 1 } :=
  next_prev_restores_cursor _ (Or.inr ⟨1, rfl, by decide⟩)

/-! ## Claim C7: circularity with period exactly the queue length -/

/-- C7: on a queue whose cursor is a valid index, `len(tracks)` applications
of `next_track` return the queue (cursor and all) to its starting value and
no smaller positive number of applications does, and likewise for
`prev_track`. -/
theorem queue_cycle_length (q : Queue) (idx : Nat)
    (hc : q.current = some idx) (hlt : idx < q.tracks.length) :
    (nextQ^[q.tracks.length] q = q ∧
      ∀ k, 0 < k → k < q.tracks.length → nextQ^[k] q ≠ q) ∧
    (prevQ^[q.tracks.length] q = q ∧
      ∀ k, 0 < k → k < q.tracks.length → prevQ^[k] q ≠ q) := by
  obtain ⟨tracks, current⟩ := q
  simp only at hc hlt ⊢
  subst hc
  have h0 : tracks ≠ [] := by
    intro hnil
    rw [hnil] at hlt
    exact absurd hlt (by simp)
  refine ⟨⟨?_, ?_⟩, ?_, ?_⟩
  · rw [nextQ_iter _ _ _ h0 hlt, Nat.add_mod_right, Nat.mod_eq_of_lt hlt]
  · intro k hk0 hklen heq
    rw [nextQ_iter _ _ _ h0 hlt] at heq
    have hcur : (idx + k) % tracks.length = idx := by
      have := congrArg Queue.current heq
      simpa using this
    have hdvd : tracks.length ∣ k := dvd_of_mod_add_eq hlt hcur
    have : k = 0 := Nat.eq_zero_of_dvd_of_lt hdvd hklen
    omega
  · rw [prevQ_iter _ _ _ h0 hlt]
    have : (idx + tracks.length * (tracks.length - 1)) % tracks.length = idx := by
      rw [Nat.mul_comm, Nat.add_mul_mod_self_right, Nat.mod_eq_of_lt hlt]
    rw [this]
  · intro k hk0 hklen heq
    rw [prevQ_iter _ _ _ h0 hlt] at heq
    have hcur : (idx + k * (tracks.length - 1)) % tracks.length = idx := by
      have := congrArg Queue.current heq
      simpa using this
    have hdvd1 : tracks.length ∣ k * (tracks.length - 1) := dvd_of_mod_add_eq hlt hcur
    have hpos : 1 ≤ tracks.length := List.length_pos.mpr h0
    have hsplit : k * tracks.length = k * (tracks.length - 1) + k := by
      have hl : tracks.length - 1 + 1 = tracks.length := by omega
      calc k * tracks.length = k * (tracks.length - 1 + 1) := by rw [hl]
        _ = k * (tracks.length - 1) + k := by ring
    have hsub : k * tracks.length - k * (tracks.length - 1) = k := by
      rw [hsplit, Nat.add_sub_cancel_left]
    have hdvd2 : tracks.length ∣ k * tracks.length := Dvd.intro_left k rfl
    have hdvdk : tracks.length ∣ k := by
      rw [← hsub]
      exact Nat.dvd_sub' hdvd2 hdvd1
    have : k = 0 := Nat.eq_zero_of_dvd_of_lt hdvdk hklen
    omega

/-- C7 (witness): the cycle on a concrete three-track queue. -/
theorem queue_cycle_length_witness :
    (nextQ^[3] { tracks := ["a".data, "b".data, "c".data], current := some 1 } =
        { tracks := ["a".data, "b".data, "c".data], current := some 1 } ∧
      ∀ k, 0 < k → k < 3 →
        nextQ^[k] { tracks := ["a".data, "b".data, "c".data], current := some 1 } ≠
          { tracks := ["a".data, "b".data, "c".data], current := some 1 }) ∧
    (prevQ^[3] { tracks := ["a".data, "b".data, "c".data], current := some 1 } =
        { tracks := ["a".data, "b".data, "c".data], current := some 1 } ∧
      ∀ k, 0 < k → k < 3 →
        prevQ^[k] { tracks := ["a".data, "b".data, "c".data], current := some 1 } ≠
          { tracks := ["a".data, "b".data, "c".data], current := some 1 }) :=
  queue_cycle_length { tracks := ["a".data, "b".data, "c".data], current := some 1 } 1
    rfl (by decide)

/-! ## Claim C10: next and prev on a cursorless non-empty queue -/

/-- C10: on a non-empty queue whose cursor is `None`, both `next_track` and
`prev_track` set the cursor to 0 and return the first track (`prev_track`
does not go to the last track). -/
theorem next_prev_from_none (q : Queue) (t : Track) (rest : List Track)
    (ht : q.tracks = t :: rest) (hc : q.current = none) :
    Queue.next_track q = (some t, { tracks := q.tracks, current := some 0 }) ∧
      Queue.prev_track q = (some t, { tracks := q.tracks, current := some 0 }) := by
  obtain ⟨tracks, current⟩ := q
  simp only at ht hc ⊢
  subst ht hc
  constructor
  · simp [Queue.next_track, Queue.track_at]
  · simp [Queue.prev_track, Queue.track_at]

/-- C10 (witness): the cursorless two-track queue. -/
theorem next_prev_from_none_witness :
    Queue.next_track { tracks := ["a".data, "b".data], current := none } =
        (some "a".data, { tracks := ["a".data, "b".data], current := some 0 }) ∧
      Queue.prev_track { tracks := ["a".data, "b".data], current := none } =
        (some "a".data, { tracks := ["a".data, "b".data], current := some 0 }) :=
  next_prev_from_none _ "a".data ["b".data] rfl rfl

/-! ## Claim C6: restoring persisted state bounds-checks the cursor -/

/-- C6: `from_state` adopts the tracks verbatim; an in-bounds cursor is
adopted verbatim and an out-of-bounds one becomes `None` (never clamped). -/
theorem from_state_checks_bounds (s : State) :
    (Queue.from_state s).tracks = s.queue ∧
      (Queue.from_state s).current =
        match s.position with
        | some idx => if idx < s.queue.length then some idx else none
        | none => none := by
  unfold Queue.from_state
  cases hp : s.position with
  | none => simp
  | some idx =>
    by_cases h : s.queue.length ≤ idx
    · simp [h, Nat.not_lt.mpr h]
    · simp [h, Nat.lt_of_not_le h]

/-! ## Claim C8: glob matching -/

/-- C8: glob matching is anchored whole-string matching where `*` matches
any run, `?` exactly one character, `\` escapes the next character, and
regex metacharacters such as parentheses are literal: the claimed example
patterns behave as stated, and the empty pattern matches only the empty
string. -/
theorem glob_matching_spec :
    glob_is_match "rock-*".data "rock-anthem".data = true ∧
    glob_is_match "rock-*".data "rock-".data = true ∧
    glob_is_match "rock-*".data "pop-anthem".data = false ∧
    glob_is_match "a?c".data "abc".data = true ∧
    glob_is_match "a?c".data "abbc".data = false ∧
    glob_is_match "a?c".data "ac".data = false ∧
    (∀ s : List Char, glob_is_match [] s = true ↔ s = []) ∧
    glob_is_match "song.(v1)".data "song.(v1)".data = true ∧
    glob_is_match "song.(v1)".data "song-av1".data = false ∧
    glob_is_match "file\\*name\\?".data "file*name?".data = true ∧
    glob_is_match "file\\*name\\?".data "fileXnameY".data = false ∧
    glob_is_match "song*".data "best song".data = false := by
  refine ⟨by decide, by decide, by decide, by decide, by decide, by decide, ?_,
    by decide, by decide, by decide, by decide, by decide⟩
  intro s
  cases s with
  | nil => simp [glob_is_match, glob_to_atoms, globMatch]
  | cons c cs => simp [glob_is_match, glob_to_atoms, globMatch]

/-! ## Claim C4: backup completes before the config write -/

/-- C4: whenever `persist_tag_mapping` writes the config file, the trace up
to that point is exactly the config read followed (when a backup directory
is configured) by the completed backup copy: the write never precedes the
backup step. -/
theorem backup_before_write (env : PersistEnv)
    (h : Ev.fsWriteConfig ∈ (persist_tag_mapping env).1) :
    (persist_tag_mapping env).1 =
      if env.backupConfigured then [Ev.fsReadConfig, Ev.fsBackupCopy, Ev.fsWriteConfig]
      else [Ev.fsReadConfig, Ev.fsWriteConfig] := by
  obtain ⟨r, pa, bc, bo, tt, w⟩ := env
  revert h
  cases r <;> cases pa <;> cases bc <;> cases bo <;> cases tt <;> cases w <;> decide

/-- C4 (witness): the all-successful run with a backup directory. -/
theorem backup_before_write_witness :
    (persist_tag_mapping ⟨true, true, true, true, true, true⟩).1 =
      if (PersistEnv.mk true true true true true true).backupConfigured then
        [Ev.fsReadConfig, Ev.fsBackupCopy, Ev.fsWriteConfig]
      else [Ev.fsReadConfig, Ev.fsWriteConfig] :=
  backup_before_write _ (by decide)

/-! ## Claim C5: a failed binding-text parse leaves everything unchanged -/

theorem parse_command_rustTrim (s : List Char) :
    parse_command (rustTrim s) = parse_command s := by
  simp only [parse_command, rustTrim_idem]

/-- C5 (counterexample): the empty binding text fails to parse as a command
(`parse_command` of the empty string is `None`), yet `assign_tag` with it is
the removal branch: it deletes the existing binding of the tag and performs
config-file I/O, so the state does not stay unchanged. -/
theorem assign_tag_empty_text_changes_state :
    parse_command [] = none ∧
      assign_tag [(⟨0, 0, 0, 0⟩, Command.Stop)] ⟨true, true, true, true, true, true⟩
          ⟨0, 0, 0, 0⟩ (some []) ≠
        ([(⟨0, 0, 0, 0⟩, Command.Stop)], []) := by
  decide

/-- C5 (amended): for every binding text whose trimmed form is non-empty,
a parse failure leaves the tag bindings unchanged and performs no
config-file I/O (the empty or whitespace-only text is instead the removal
branch). -/
theorem assign_tag_parse_failure_no_change (tags : List (TagId × Command)) (env : PersistEnv)
    (id : TagId) (s : List Char) (h1 : rustTrim s ≠ []) (h2 : parse_command s = none) :
    assign_tag tags env id (some s) = (tags, []) := by
  have hpr : parse_command (rustTrim s) = none := by
    rw [parse_command_rustTrim, h2]
  simp only [assign_tag, if_neg h1, hpr]

/-- C5 (witness): the unparsable non-empty text `dance`. -/
theorem assign_tag_parse_failure_no_change_witness :
    assign_tag [(⟨0, 0, 0, 0⟩, Command.Stop)] ⟨true, true, true, true, true, true⟩
        ⟨0, 0, 0, 0⟩ (some "dance".data) =
      ([(⟨0, 0, 0, 0⟩, Command.Stop)], []) :=
  assign_tag_parse_failure_no_change _ _ _ _ (by decide) (by decide)

/-! ## Claim C9: an unbound tag only records last_tag -/

/-- C9: dispatching `Tag{id}` for a tag with no binding sets `last_tag` to
the id and changes nothing else: library, queue, bindings and `current` are
unchanged, the player is untouched, and no side effect happens (empty
trace). -/
theorem unbound_tag_only_sets_last_tag (st : EngineState) (p : PlayerState)
    (ok : Track → Bool) (shuffle : List Track → List Track) (id : TagId)
    (h : lookupTag st.tags id = none) :
    process_command st p ok shuffle (Command.Tag id) =
      ({ st with lastTag := some id }, p, []) := by
  simp only [process_command, h]

/-- C9 (witness): a concrete engine state with no bindings. -/
theorem unbound_tag_only_sets_last_tag_witness :
    process_command
        { library := ["a".data], queue := { tracks := ["a".data], current := some 0 },
          tags := [], current := some "a".data, lastTag := none,
          stateFileConfigured := true, env := ⟨true, true, true, true, true, true⟩ }
        { sink := some { track := "a".data, paused := false }, watching := true }
        (fun _ => true) (fun l => l) (Command.Tag ⟨0, 0, 0, 0⟩) =
      ({ library := ["a".data], queue := { tracks := ["a".data], current := some 0 },
          tags := [], current := some "a".data, lastTag := some ⟨0, 0, 0, 0⟩,
          stateFileConfigured := true, env := ⟨true, true, true, true, true, true⟩ },
        { sink := some { track := "a".data, paused := false }, watching := true }, []) :=
  unbound_tag_only_sets_last_tag _ _ _ _ _ rfl

/-! ## Claim C3: PlayPause with a filter behaves exactly like Play -/

/-- C3: dispatching `PlayPause` with a filter present has exactly the same
effect as dispatching `Play` with the same filter: identical resulting
engine state, identical player state, and identical side-effect trace
(rebuild ordered queue, stop, play cursor track, save state). -/
theorem playpause_filter_equals_play (st : EngineState) (p : PlayerState)
    (ok : Track → Bool) (shuffle : List Track → List Track) (f : List Char) :
    process_command st p ok shuffle (Command.PlayPause (some f)) =
      process_command st p ok shuffle (Command.Play (some f)) := by
  simp only [process_command, process_basic, on_play_pause, play_queue_track]
  cases h : (play_track
      (rebuild_queue st (some f) QueueOrder.Ordered shuffle).1.queue.current_track
      (Player.stop p).1 ok true).1 with
  | none => simp [h, List.append_assoc]
  | some t => simp [h, List.append_assoc]

end Crabbox
